import Mathlib

/-!
Verification of the download-metrics derivation pipeline of the
`streamlit/example-app-download` repository (`src/app.py`).

The pipeline modelled here:
  * `monthly_downloads` / `weekly_downloads` issue a SQL aggregation over raw
    daily per-project download rows: truncate each date to the start of the
    month (resp. week), filter to dates on/after the start date and to the
    fixed project allow-list, sum downloads grouped by (truncated date,
    project), for weekly data drop groups whose truncated date is less than
    7 days old (`HAVING date_diff(CURRENT_DATE(), max(date_trunc(date, WEEK)),
    DAY) >= 7`), and order by (date, project) ascending;
  * the resulting table gets a `delta` column via
    `df.groupby(["project"])["downloads"].pct_change().fillna(0)`;
  * `main` slices the derived table to the "pandas" series for the trend view
    and to the user-selected package set for the comparison view, stopping
    before the comparison chart when the selection is empty.

Dates are modelled as integer day numbers (days since 1970-01-01); calendar
truncation uses the standard civil-calendar conversion.  Download counts are
naturals.  The float `delta` column is modelled exactly: a rational for an
ordinary value, plus the IEEE special values `+inf`, `-inf` and `NaN` that
`pct_change` can produce (division of a nonzero value by zero gives an
infinity, `0/0` gives `NaN`; `fillna(0)` replaces only `NaN`).
-/

namespace App

/-- One raw warehouse row of `streamlit.streamlit.pypi_downloads`:
a daily download count for one project. -/
structure RawRow where
  date : Int
  project : String
  downloads : Nat
deriving DecidableEq

/-- The fixed project allow-list appearing in both SQL queries. -/
def allowList : List String :=
  ["pandas", "keras", "torch", "tensorflow", "numpy", "sci-kit learn"]

/-- Convert a day number (days since 1970-01-01) to a civil (year, month, day)
triple, Gregorian calendar. -/
def daysToCivil (z0 : Int) : Int × Int × Int :=
  let z := z0 + 719468
  let era : Int := z / 146097
  let doe := z - era * 146097
  let yoe := (doe - doe / 1460 + doe / 36524 - doe / 146096) / 365
  let y := yoe + era * 400
  let doy := doe - (365 * yoe + yoe / 4 - yoe / 100)
  let mp := (5 * doy + 2) / 153
  let d := doy - (153 * mp + 2) / 5 + 1
  let m := if mp < 10 then mp + 3 else mp - 9
  (if m ≤ 2 then y + 1 else y, m, d)

/-- Convert a civil (year, month, day) date to its day number. -/
def civilToDays (y0 m d : Int) : Int :=
  let y := if m ≤ 2 then y0 - 1 else y0
  let era : Int := y / 400
  let yoe := y - era * 400
  let mp := if 2 < m then m - 3 else m + 9
  let doy := (153 * mp + 2) / 5 + d - 1
  let doe := yoe * 365 + yoe / 4 - yoe / 100 + doy
  era * 146097 + doe - 719468

/-- BigQuery `date_trunc(date, MONTH)`: first day of the date's month. -/
def truncMonth (z : Int) : Int :=
  let c := daysToCivil z
  civilToDays c.1 c.2.1 1

/-- BigQuery `date_trunc(date, WEEK)`: the preceding (or same) Sunday.
Day 0 (1970-01-01) is a Thursday, so day `z` is `(z + 4) % 7` days after a
Sunday. -/
def truncWeek (z : Int) : Int :=
  z - (z + 4) % 7

/-- One row of the aggregation query result: `(date, project, downloads)`
with `date` already truncated to the period start. -/
structure AggRow where
  date : Int
  project : String
  downloads : Nat
deriving DecidableEq

/-- The `ORDER BY 1,2 ASC` order on `(date, project)` keys (non-strict).
Strings are compared through their character lists; this agrees with the
lexicographic `String` order (`String.lt_iff_toList_lt`). -/
def keyLe (a b : Int × String) : Prop :=
  a.1 < b.1 ∨ (a.1 = b.1 ∧ (a.2 = b.2 ∨ a.2.data < b.2.data))

/-- Strict lexicographic order on `(date, project)` keys. -/
def keyLt (a b : Int × String) : Prop :=
  a.1 < b.1 ∨ (a.1 = b.1 ∧ a.2.data < b.2.data)

instance : DecidableRel keyLe := fun a b => by
  unfold keyLe; exact inferInstance

instance : DecidableRel keyLt := fun a b => by
  unfold keyLt; exact inferInstance

/-- The SQL `WHERE` clause: keep rows with `date >= start_date` whose project
is in the allow-list. -/
def filteredRows (startDate : Int) (raw : List RawRow) : List RawRow :=
  raw.filter (fun r => decide (startDate ≤ r.date) && allowList.contains r.project)

/-- The distinct `GROUP BY 1,2` keys `(trunc date, project)` of a row list. -/
def rawKeys (trunc : Int → Int) (rows : List RawRow) : List (Int × String) :=
  (rows.map (fun r => (trunc r.date, r.project))).dedup

/-- The rows belonging to one `GROUP BY (trunc date, project)` group. -/
def groupRows (trunc : Int → Int) (rows : List RawRow) (k : Int × String) : List RawRow :=
  rows.filter (fun r => trunc r.date == k.1 && r.project == k.2)

/-- Group keys surviving the `HAVING` clause, in `ORDER BY 1,2 ASC` order. -/
def aggKeys (trunc : Int → Int) (keep : Int × String → List RawRow → Bool)
    (startDate : Int) (raw : List RawRow) : List (Int × String) :=
  List.insertionSort keyLe
    ((rawKeys trunc (filteredRows startDate raw)).filter
      (fun k => keep k (groupRows trunc (filteredRows startDate raw) k)))

/-- The full aggregation query: `SELECT trunc(date), project, SUM(downloads)
FROM raw WHERE ... GROUP BY 1,2 [HAVING keep] ORDER BY 1,2 ASC`. -/
def aggregate (trunc : Int → Int) (keep : Int × String → List RawRow → Bool)
    (startDate : Int) (raw : List RawRow) : List AggRow :=
  (aggKeys trunc keep startDate raw).map
    (fun k => ⟨k.1, k.2,
      ((groupRows trunc (filteredRows startDate raw) k).map (fun r => r.downloads)).sum⟩)

/-- The weekly query's `HAVING date_diff(CURRENT_DATE(), max(date_trunc(date,
WEEK)), DAY) >= 7` clause, evaluated on one group's raw rows. -/
def weeklyKeep (today : Int) (_k : Int × String) (g : List RawRow) : Bool :=
  match (g.map (fun r => truncWeek r.date)).max? with
  | some v => decide (7 ≤ today - v)
  | none => false

/-- The value of the float `delta` column for one row: an ordinary rational,
or one of the IEEE special values `pct_change` can produce. -/
inductive Delta where
  | num (q : ℚ)
  | posInf
  | negInf
  | nan
deriving DecidableEq

/-- `Series.fillna(0)`: replaces `NaN` by `0`; infinities are NOT replaced. -/
def fillna0 : Delta → Delta
  | Delta.nan => Delta.num 0
  | d => d

/-- Float semantics of `pct_change` for one element: `(cur - prev) / prev`,
where a missing previous element gives `NaN`, division of a nonzero value by
zero gives `+inf` (counts are non-negative) and `0/0` gives `NaN`.  The
ordinary value is built with `mkRat`; `Rat.mkRat_eq_div` identifies it with
the quotient `((cur : ℚ) - prev) / prev`. -/
def pctChange (prev : Option Nat) (cur : Nat) : Delta :=
  match prev with
  | none => Delta.nan
  | some p =>
    if p = 0 then
      if cur = 0 then Delta.nan else Delta.posInf
    else Delta.num (mkRat ((cur : Int) - (p : Int)) p)

/-- One row of a derived table (`DownloadRecord` of the spec). -/
structure DownloadRecord where
  date : Int
  project : String
  downloads : Nat
  delta : Delta
deriving DecidableEq

/-- The most recent `downloads` value recorded for project `p`. -/
def lookupSeen (seen : List (String × Nat)) (p : String) : Option Nat :=
  (seen.find? (fun q => q.1 == p)).map (fun q => q.2)

/-- `df.groupby(["project"])["downloads"].pct_change().fillna(0)`: walk the
table in order, giving each row the pct-change of its downloads versus the
previous row of the same project (NaN, filled with 0, for a project's first
row). -/
def addDeltaAux (seen : List (String × Nat)) : List AggRow → List DownloadRecord
  | [] => []
  | r :: rs =>
    (⟨r.date, r.project, r.downloads,
      fillna0 (pctChange (lookupSeen seen r.project) r.downloads)⟩ : DownloadRecord)
      :: addDeltaAux ((r.project, r.downloads) :: seen) rs

/-- Attach the `delta` column to an aggregation result. -/
def addDelta (rows : List AggRow) : List DownloadRecord :=
  addDeltaAux [] rows

/-- `monthly_downloads(start_date)` of `src/app.py` (the date-type
normalisation `astype("datetime64")` is a representation change and is the
identity here). -/
def monthly_downloads (startDate : Int) (raw : List RawRow) : List DownloadRecord :=
  addDelta (aggregate truncMonth (fun _ _ => true) startDate raw)

/-- `weekly_downloads(start_date)` of `src/app.py`; `today` is
`CURRENT_DATE()` at query time. -/
def weekly_downloads (today startDate : Int) (raw : List RawRow) : List DownloadRecord :=
  addDelta (aggregate truncWeek (weeklyKeep today) startDate raw)

/-- The spec's `delta` computation restricted to one project group: the first
element is compared against `prev`, each later element against its
predecessor. -/
def deltaSeries (prev : Option Nat) : List AggRow → List DownloadRecord
  | [] => []
  | r :: rs =>
    (⟨r.date, r.project, r.downloads, fillna0 (pctChange prev r.downloads)⟩ : DownloadRecord)
      :: deltaSeries (some r.downloads) rs

/-- View-shaping contract A, `df[df["project"] == project_name]`
(line 198/199 of `src/app.py`). -/
def single_series (records : List DownloadRecord) (projectName : String) : List DownloadRecord :=
  records.filter (fun r => r.project == projectName)

/-- View-shaping contract B,
`df[df["project"].isin(select_packages)]` (lines 242-244 of `src/app.py`). -/
def comparison (records : List DownloadRecord) (selectedProjects : List String) : List DownloadRecord :=
  records.filter (fun r => selectedProjects.contains r.project)

/-- The two values offered by the granularity selectbox. -/
def timeFrameOptions : List String :=
  ["weekly", "monthly"]

/-- `main`'s granularity dispatch for the comparison table (lines 203-208):
`if time_frame == "weekly": ... else: ...` — everything that is not
`"weekly"` takes the `else` (monthly) branch. -/
def selectedDataAll (timeFrame : String) (today startDate : Int) (raw : List RawRow) : List DownloadRecord :=
  if timeFrame == "weekly" then weekly_downloads today startDate raw
  else monthly_downloads startDate raw

/-- `main`'s granularity dispatch for the pandas trend series. -/
def selectedDataStreamlit (timeFrame : String) (today startDate : Int) (raw : List RawRow) : List DownloadRecord :=
  if timeFrame == "weekly" then single_series (weekly_downloads today startDate raw) "pandas"
  else single_series (monthly_downloads startDate raw) "pandas"

/-- A chart actually rendered by `main`. -/
inductive View where
  | trend (series : List DownloadRecord)
  | comparisonView (tbl : List DownloadRecord)
deriving DecidableEq

/-- The sequence of charts `main` renders: the pandas trend chart first; then,
only when the package selection is nonempty (`if not select_packages:
st.stop()`), the comparison chart over the selected packages. -/
def renderViews (timeFrame : String) (today startDate : Int) (raw : List RawRow)
    (selectPackages : List String) : List View :=
  if selectPackages.isEmpty then
    [View.trend (selectedDataStreamlit timeFrame today startDate raw)]
  else
    [View.trend (selectedDataStreamlit timeFrame today startDate raw),
     View.comparisonView (comparison (selectedDataAll timeFrame today startDate raw) selectPackages)]

/-- The `(period_start, project)` key of a derived row. -/
def recKey (r : DownloadRecord) : Int × String :=
  (r.date, r.project)

/-- The `(period_start, project)` key of an aggregation row. -/
def aggKey (r : AggRow) : Int × String :=
  (r.date, r.project)

/-- The string constant `"pandas"`. -/
def pandasStr : String :=
  "pandas"

/-- The string constant `"numpy"`. -/
def numpyStr : String :=
  "numpy"

/-- The string constant `"daily"`, a granularity value outside the selectbox
options. -/
def dailyStr : String :=
  "daily"

/-- A sample raw table used to instantiate the theorems:
pandas has 60 + 40 = 100 downloads in January 2020 (days 18262, 18275) and
150 in February 2020 (day 18293); numpy has 0 in January and 10 in February. -/
def sampleRaw : List RawRow :=
  [⟨18262, "pandas", 60⟩, ⟨18275, "pandas", 40⟩, ⟨18293, "pandas", 150⟩,
   ⟨18262, "numpy", 0⟩, ⟨18293, "numpy", 10⟩]

/-! ### Helper lemmas -/

/-- `keyLe` is transitive. -/
instance : IsTrans (Int × String) keyLe where
  trans := by
    intro a b c hab hbc
    rcases hab with h1 | ⟨e1, h1⟩
    · rcases hbc with h2 | ⟨e2, h2⟩
      · exact Or.inl (lt_trans h1 h2)
      · exact Or.inl (by rw [← e2]; exact h1)
    · rcases hbc with h2 | ⟨e2, h2⟩
      · exact Or.inl (by rw [e1]; exact h2)
      · refine Or.inr ⟨e1.trans e2, ?_⟩
        rcases h1 with he | hl
        · rcases h2 with he2 | hl2
          · exact Or.inl (he.trans he2)
          · exact Or.inr (by rw [he]; exact hl2)
        · rcases h2 with he2 | hl2
          · exact Or.inr (by rw [← he2]; exact hl)
          · exact Or.inr (lt_trans hl hl2)

/-- `keyLe` is total. -/
instance : IsTotal (Int × String) keyLe where
  total := by
    intro a b
    rcases lt_trichotomy a.1 b.1 with h | h | h
    · exact Or.inl (Or.inl h)
    · rcases lt_trichotomy a.2.data b.2.data with h2 | h2 | h2
      · exact Or.inl (Or.inr ⟨h, Or.inr h2⟩)
      · exact Or.inl (Or.inr ⟨h, Or.inl (by
          have := congrArg String.mk h2
          simpa using this)⟩)
      · exact Or.inr (Or.inr ⟨h.symm, Or.inr h2⟩)
    · exact Or.inr (Or.inl h)

/-- A non-strict key inequality between distinct keys is strict. -/
theorem keyLe_ne_lt (a b : Int × String) (h : keyLe a b) (hne : a ≠ b) : keyLt a b := by
  rcases h with h1 | ⟨e1, he | hl⟩
  · exact Or.inl h1
  · exact absurd (Prod.ext e1 he) hne
  · exact Or.inr ⟨e1, hl⟩

/-- `addDeltaAux` only attaches a column: the `(date, project)` keys are
unchanged. -/
theorem addDeltaAux_map_key (seen : List (String × Nat)) (rows : List AggRow) :
    (addDeltaAux seen rows).map recKey = rows.map aggKey := by
  induction rows generalizing seen with
  | nil => rfl
  | cons r rs ih => simp [addDeltaAux, recKey, aggKey, ih]

/-- The aggregation result's `(date, project)` keys are exactly the sorted,
kept group keys. -/
theorem aggregate_map_key (trunc : Int → Int) (keep : Int × String → List RawRow → Bool)
    (startDate : Int) (raw : List RawRow) :
    (aggregate trunc keep startDate raw).map aggKey = aggKeys trunc keep startDate raw := by
  unfold aggregate
  rw [List.map_map]
  exact List.map_id _

/-- The keys of both derived tables are some `aggKeys` run. -/
theorem derived_map_key (today startDate : Int) (raw : List RawRow) (tbl : List DownloadRecord)
    (htbl : tbl = monthly_downloads startDate raw ∨ tbl = weekly_downloads today startDate raw) :
    ∃ trunc keep, tbl.map recKey = aggKeys trunc keep startDate raw := by
  obtain rfl | rfl := htbl
  · exact ⟨truncMonth, fun _ _ => true,
      (addDeltaAux_map_key [] _).trans (aggregate_map_key _ _ _ _)⟩
  · exact ⟨truncWeek, weeklyKeep today,
      (addDeltaAux_map_key [] _).trans (aggregate_map_key _ _ _ _)⟩

/-- `aggKeys` is sorted for the non-strict key order. -/
theorem aggKeys_sorted (trunc : Int → Int) (keep : Int × String → List RawRow → Bool)
    (startDate : Int) (raw : List RawRow) :
    List.Sorted keyLe (aggKeys trunc keep startDate raw) :=
  List.sorted_insertionSort keyLe _

/-- `aggKeys` has no duplicate keys (`GROUP BY` produces each key once). -/
theorem aggKeys_nodup (trunc : Int → Int) (keep : Int × String → List RawRow → Bool)
    (startDate : Int) (raw : List RawRow) :
    (aggKeys trunc keep startDate raw).Nodup := by
  have h1 : ((rawKeys trunc (filteredRows startDate raw)).filter
      (fun k => keep k (groupRows trunc (filteredRows startDate raw) k))).Nodup :=
    (List.nodup_dedup _).filter _
  exact ((List.perm_insertionSort keyLe _).nodup_iff).mpr h1

/-- Restricting `addDeltaAux` output to one project is exactly the per-group
delta computation `deltaSeries`, seeded with the project's last value in
`seen`. -/
theorem single_series_addDeltaAux (seen : List (String × Nat)) (rows : List AggRow) (p : String) :
    single_series (addDeltaAux seen rows) p
      = deltaSeries (lookupSeen seen p) (rows.filter (fun r => r.project == p)) := by
  induction rows generalizing seen with
  | nil => rfl
  | cons r rs ih =>
    have ih' := ih ((r.project, r.downloads) :: seen)
    by_cases h : r.project = p
    · subst h
      simp only [single_series] at ih' ⊢
      simp only [addDeltaAux, List.filter_cons, beq_self_eq_true, if_pos]
      rw [ih']
      simp [deltaSeries, lookupSeen, List.find?]
    · have hb : (r.project == p) = false := beq_eq_false_iff_ne.mpr h
      simp only [single_series] at ih' ⊢
      simp only [addDeltaAux, List.filter_cons, hb]
      rw [ih']
      simp [lookupSeen, List.find?, hb]

/-- Both derived tables restrict, per project, to a `deltaSeries` run seeded
with no previous value. -/
theorem derived_single_series (today startDate : Int) (raw : List RawRow)
    (tbl : List DownloadRecord)
    (htbl : tbl = monthly_downloads startDate raw ∨ tbl = weekly_downloads today startDate raw)
    (p : String) :
    ∃ rows : List AggRow,
      single_series tbl p = deltaSeries none (rows.filter (fun r => r.project == p)) := by
  obtain rfl | rfl := htbl
  · exact ⟨aggregate truncMonth (fun _ _ => true) startDate raw, single_series_addDeltaAux [] _ p⟩
  · exact ⟨aggregate truncWeek (weeklyKeep today) startDate raw, single_series_addDeltaAux [] _ p⟩

/-- The first element of a `deltaSeries` run has the delta of its seed. -/
theorem deltaSeries_first (prev : Option Nat) (rows : List AggRow) (b : DownloadRecord)
    (hb : (deltaSeries prev rows)[0]? = some b) :
    b.delta = fillna0 (pctChange prev b.downloads) := by
  cases rows with
  | nil => simp [deltaSeries] at hb
  | cons r rs =>
    simp only [deltaSeries, List.getElem?_cons_zero, Option.some.injEq] at hb
    rw [← hb]

/-- Within a `deltaSeries` run, each element's delta after the first is the
pct-change of its downloads against the previous element's downloads. -/
theorem deltaSeries_consecutive (prev : Option Nat) (rows : List AggRow) (i : Nat)
    (a b : DownloadRecord)
    (ha : (deltaSeries prev rows)[i]? = some a)
    (hb : (deltaSeries prev rows)[i + 1]? = some b) :
    b.delta = fillna0 (pctChange (some a.downloads) b.downloads) := by
  induction rows generalizing prev i with
  | nil => simp [deltaSeries] at ha
  | cons r rs ih =>
    cases i with
    | zero =>
      simp only [deltaSeries, List.getElem?_cons_zero, Option.some.injEq] at ha
      simp only [deltaSeries, List.getElem?_cons_succ] at hb
      have h0 := deltaSeries_first (some r.downloads) rs b hb
      rw [← ha]
      exact h0
    | succ j =>
      simp only [deltaSeries, List.getElem?_cons_succ] at ha hb
      exact ih (some r.downloads) j ha hb

/-! ### Claim theorems -/

/-- Claim C6 (confirmed): in every derived table (monthly or weekly), for
every per-project group, the delta of the group's first row equals 0 (the
`pct_change` of a group's first row is `NaN`, and `fillna(0)` replaces it
with 0). -/
theorem c6_first_delta_zero (today startDate : Int) (raw : List RawRow)
    (tbl : List DownloadRecord)
    (htbl : tbl = monthly_downloads startDate raw ∨ tbl = weekly_downloads today startDate raw)
    (p : String) (r : DownloadRecord)
    (hr : (single_series tbl p)[0]? = some r) :
    r.delta = Delta.num 0 := by
  obtain ⟨rows, hs⟩ := derived_single_series today startDate raw tbl htbl p
  rw [hs] at hr
  have h := deltaSeries_first none _ r hr
  exact h.trans rfl

/-- Witness for C6: in the monthly table over `sampleRaw`, the first pandas
row carries delta 0. -/
theorem c6_witness :
    ((single_series (monthly_downloads 18262 sampleRaw) pandasStr)[0]?
        = some (⟨18262, "pandas", 100, Delta.num 0⟩ : DownloadRecord)) ∧
    (⟨18262, "pandas", 100, Delta.num 0⟩ : DownloadRecord).delta = Delta.num 0 :=
  ⟨by decide, c6_first_delta_zero 0 18262 sampleRaw _ (Or.inl rfl) pandasStr
    (⟨18262, "pandas", 100, Delta.num 0⟩ : DownloadRecord) (by decide)⟩

/-- Claim C2 (confirmed): in every derived table, within every per-project
group, the delta of a row whose predecessor has nonzero downloads is
`(downloads[i] - downloads[i-1]) / downloads[i-1]`. -/
theorem c2_delta_formula (today startDate : Int) (raw : List RawRow)
    (tbl : List DownloadRecord)
    (htbl : tbl = monthly_downloads startDate raw ∨ tbl = weekly_downloads today startDate raw)
    (p : String) (i : Nat) (a b : DownloadRecord)
    (ha : (single_series tbl p)[i]? = some a)
    (hb : (single_series tbl p)[i + 1]? = some b)
    (h0 : a.downloads ≠ 0) :
    b.delta = Delta.num (((b.downloads : ℚ) - (a.downloads : ℚ)) / (a.downloads : ℚ)) := by
  obtain ⟨rows, hs⟩ := derived_single_series today startDate raw tbl htbl p
  rw [hs] at ha hb
  have h := deltaSeries_consecutive none _ i a b ha hb
  rw [h]
  have hpc : pctChange (some a.downloads) b.downloads
      = Delta.num (mkRat ((b.downloads : Int) - (a.downloads : Int)) a.downloads) := by
    simp [pctChange, h0]
  rw [hpc]
  show Delta.num (mkRat ((b.downloads : Int) - (a.downloads : Int)) a.downloads) = _
  rw [Rat.mkRat_eq_div]
  congr 1
  push_cast
  ring

/-- Witness for C2, the spec's example: pandas at 100 downloads in month 1
and 150 in month 2 yields delta `(150 - 100) / 100 = 1/2` on the second
row. -/
theorem c2_witness :
    ((single_series (monthly_downloads 18262 sampleRaw) pandasStr)[0]?
        = some (⟨18262, "pandas", 100, Delta.num 0⟩ : DownloadRecord)) ∧
    ((single_series (monthly_downloads 18262 sampleRaw) pandasStr)[1]?
        = some (⟨18293, "pandas", 150, Delta.num (mkRat 1 2)⟩ : DownloadRecord)) ∧
    (⟨18293, "pandas", 150, Delta.num (mkRat 1 2)⟩ : DownloadRecord).delta
      = Delta.num ((((150 : Nat) : ℚ) - ((100 : Nat) : ℚ)) / ((100 : Nat) : ℚ)) :=
  ⟨by decide, by decide,
    c2_delta_formula 0 18262 sampleRaw _ (Or.inl rfl) pandasStr 0
      (⟨18262, "pandas", 100, Delta.num 0⟩ : DownloadRecord)
      (⟨18293, "pandas", 150, Delta.num (mkRat 1 2)⟩ : DownloadRecord)
      (by decide) (by decide) (by decide)⟩

/-- Counterexample for C1: with numpy at 0 downloads in January 2020 and 10
in February (part of `sampleRaw`), the row following the zero row carries
delta `+inf`, not the claimed 0: `pct_change` divides by the zero previous
value, producing `inf`, and `fillna(0)` replaces only `NaN`. -/
theorem c1_counterexample :
    ((single_series (monthly_downloads 18262 sampleRaw) numpyStr)[0]?
        = some (⟨18262, "numpy", 0, Delta.num 0⟩ : DownloadRecord)) ∧
    ((single_series (monthly_downloads 18262 sampleRaw) numpyStr)[1]?
        = some (⟨18293, "numpy", 10, Delta.posInf⟩ : DownloadRecord)) ∧
    Delta.posInf ≠ Delta.num 0 :=
  ⟨by decide, by decide, by decide⟩

/-- Claim C1 (amended): in every derived table, within every per-project
group, a row whose predecessor has 0 downloads carries delta 0 when its own
downloads are also 0 (`0/0` is `NaN`, filled with 0), and `+inf` otherwise
(a nonzero value divided by zero; `fillna(0)` does not replace
infinities). -/
theorem c1_amended_zero_prev (today startDate : Int) (raw : List RawRow)
    (tbl : List DownloadRecord)
    (htbl : tbl = monthly_downloads startDate raw ∨ tbl = weekly_downloads today startDate raw)
    (p : String) (i : Nat) (a b : DownloadRecord)
    (ha : (single_series tbl p)[i]? = some a)
    (hb : (single_series tbl p)[i + 1]? = some b)
    (h0 : a.downloads = 0) :
    b.delta = if b.downloads = 0 then Delta.num 0 else Delta.posInf := by
  obtain ⟨rows, hs⟩ := derived_single_series today startDate raw tbl htbl p
  rw [hs] at ha hb
  have h := deltaSeries_consecutive none _ i a b ha hb
  rw [h, h0]
  by_cases hc : b.downloads = 0
  · simp [pctChange, fillna0, hc]
  · simp [pctChange, fillna0, hc]

/-- Witness for the amended C1: numpy's February row (predecessor 0,
downloads 10) carries `+inf`. -/
theorem c1_witness :
    ((single_series (monthly_downloads 18262 sampleRaw) numpyStr)[0]?
        = some (⟨18262, "numpy", 0, Delta.num 0⟩ : DownloadRecord)) ∧
    ((single_series (monthly_downloads 18262 sampleRaw) numpyStr)[1]?
        = some (⟨18293, "numpy", 10, Delta.posInf⟩ : DownloadRecord)) ∧
    (⟨18293, "numpy", 10, Delta.posInf⟩ : DownloadRecord).delta
      = if (⟨18293, "numpy", 10, Delta.posInf⟩ : DownloadRecord).downloads = 0
        then Delta.num 0 else Delta.posInf :=
  ⟨by decide, by decide,
    c1_amended_zero_prev 0 18262 sampleRaw _ (Or.inl rfl) numpyStr 0
      (⟨18262, "numpy", 0, Delta.num 0⟩ : DownloadRecord)
      (⟨18293, "numpy", 10, Delta.posInf⟩ : DownloadRecord)
      (by decide) (by decide) (by decide)⟩

/-- Claim C4 (confirmed): for every start date, the weekly table contains no
row whose truncated week start lies less than 7 days before the current date
(the `HAVING date_diff(CURRENT_DATE(), max(date_trunc(date, WEEK)), DAY) >=
7` clause excludes the still-accumulating week). -/
theorem c4_weekly_age (today startDate : Int) (raw : List RawRow) (r : DownloadRecord)
    (hr : r ∈ weekly_downloads today startDate raw) :
    ¬ (today - r.date < 7) := by
  have hkey : recKey r ∈ (weekly_downloads today startDate raw).map recKey :=
    List.mem_map_of_mem recKey hr
  have hk : (weekly_downloads today startDate raw).map recKey
      = aggKeys truncWeek (weeklyKeep today) startDate raw :=
    (addDeltaAux_map_key [] _).trans (aggregate_map_key _ _ _ _)
  rw [hk] at hkey
  have h1 : recKey r ∈ ((rawKeys truncWeek (filteredRows startDate raw)).filter
      (fun k => weeklyKeep today k (groupRows truncWeek (filteredRows startDate raw) k))) :=
    ((List.perm_insertionSort keyLe _).mem_iff).mp hkey
  have h2 := List.of_mem_filter h1
  intro hlt
  rcases hmx : ((groupRows truncWeek (filteredRows startDate raw) (recKey r)).map
      (fun rr => truncWeek rr.date)).max? with _ | v
  · simp [weeklyKeep, hmx] at h2
  · simp only [weeklyKeep, hmx] at h2
    have hv7 : 7 ≤ today - v := of_decide_eq_true h2
    have hvmem := List.max?_mem (fun a b => max_choice a b) hmx
    obtain ⟨rr, hrr, hveq⟩ := List.mem_map.mp hvmem
    have hcond := List.of_mem_filter hrr
    simp only [Bool.and_eq_true, beq_iff_eq] at hcond
    rw [← hveq, hcond.1] at hv7
    exact absurd hv7 (not_le.mpr hlt)

/-- Witness for C4: the first weekly row over `sampleRaw` (week start day
18259) is at least 7 days old on day 18300. -/
theorem c4_witness :
    ((⟨18259, "numpy", 0, Delta.num 0⟩ : DownloadRecord)
        ∈ weekly_downloads 18300 18262 sampleRaw) ∧
    ¬ ((18300 : Int) - (⟨18259, "numpy", 0, Delta.num 0⟩ : DownloadRecord).date < 7) :=
  ⟨by decide, c4_weekly_age 18300 18262 sampleRaw
    (⟨18259, "numpy", 0, Delta.num 0⟩ : DownloadRecord) (by decide)⟩

/-- Claim C5 (confirmed): every derived table is strictly ordered by
`(period_start, project)` ascending: `period_start` ascending, `project`
ascending within equal `period_start`. -/
theorem c5_strict_order (today startDate : Int) (raw : List RawRow)
    (tbl : List DownloadRecord)
    (htbl : tbl = monthly_downloads startDate raw ∨ tbl = weekly_downloads today startDate raw) :
    List.Pairwise (fun a b => keyLt (recKey a) (recKey b)) tbl := by
  obtain ⟨trunc, keep, hk⟩ := derived_map_key today startDate raw tbl htbl
  have hs : List.Pairwise keyLe (tbl.map recKey) := by
    rw [hk]; exact aggKeys_sorted trunc keep startDate raw
  have hn : List.Pairwise (fun a b : Int × String => a ≠ b) (tbl.map recKey) := by
    rw [hk]; exact aggKeys_nodup trunc keep startDate raw
  have hs' := List.pairwise_map.mp hs
  have hn' := List.pairwise_map.mp hn
  exact (hs'.and hn').imp (fun h => keyLe_ne_lt _ _ h.1 h.2)

/-- Witness for C5: the weekly table over `sampleRaw` is strictly sorted by
`(period_start, project)`. -/
theorem c5_witness :
    List.Pairwise (fun a b => keyLt (recKey a) (recKey b))
      (weekly_downloads 18300 18262 sampleRaw) :=
  c5_strict_order 18300 18262 sampleRaw _ (Or.inr rfl)

/-- Claim C9 (confirmed): in every derived table, the `(period_start,
project)` pair is unique: no two distinct rows share both values. -/
theorem c9_key_unique (today startDate : Int) (raw : List RawRow)
    (tbl : List DownloadRecord)
    (htbl : tbl = monthly_downloads startDate raw ∨ tbl = weekly_downloads today startDate raw) :
    (tbl.map recKey).Nodup := by
  obtain ⟨trunc, keep, hk⟩ := derived_map_key today startDate raw tbl htbl
  rw [hk]
  exact aggKeys_nodup trunc keep startDate raw

/-- Witness for C9: the monthly table over `sampleRaw` has pairwise distinct
`(period_start, project)` keys. -/
theorem c9_witness :
    ((monthly_downloads 18262 sampleRaw).map recKey).Nodup :=
  c9_key_unique 0 18262 sampleRaw _ (Or.inl rfl)

/-- Counterexample for C3: for the granularity value `"daily"` — neither the
weekly nor the monthly option — `main`'s dispatch returns the monthly table
(the `else` branch): it falls back to a default instead of signalling an
invalid-argument condition (no such signal exists in `main`). -/
theorem c3_counterexample :
    selectedDataAll dailyStr 18300 18262 sampleRaw = monthly_downloads 18262 sampleRaw ∧
    selectedDataAll dailyStr 18300 18262 sampleRaw ≠ weekly_downloads 18300 18262 sampleRaw ∧
    dailyStr ∉ timeFrameOptions :=
  ⟨rfl, by decide, by decide⟩

/-- Claim C3 (amended): every granularity value other than `"weekly"` —
including any unsupported or malformed value — selects the monthly table;
`main` signals no invalid-argument condition (in practice the selectbox
limits the value to `"weekly"` or `"monthly"`). -/
theorem c3_amended_fallback (g : String) (today startDate : Int) (raw : List RawRow)
    (h : g ≠ "weekly") :
    selectedDataAll g today startDate raw = monthly_downloads startDate raw := by
  have hb : (g == "weekly") = false := beq_eq_false_iff_ne.mpr h
  simp [selectedDataAll, hb]

/-- Witness for the amended C3: the granularity `"daily"` yields the monthly
table. -/
theorem c3_witness :
    selectedDataAll dailyStr 0 18262 sampleRaw = monthly_downloads 18262 sampleRaw :=
  c3_amended_fallback dailyStr 0 18262 sampleRaw (by decide)

/-- Claim C7 (confirmed): `single_series(records, "pandas")` returns exactly
the rows with project `"pandas"`, preserving the original order (it is a
sublist of the input), and is empty when no row has project `"pandas"`. -/
theorem c7_single_series_pandas (records : List DownloadRecord) :
    (∀ r ∈ single_series records pandasStr, r.project = pandasStr) ∧
    List.Sublist (single_series records pandasStr) records ∧
    (∀ r ∈ records, r.project = pandasStr → r ∈ single_series records pandasStr) ∧
    ((∀ r ∈ records, r.project ≠ pandasStr) → single_series records pandasStr = []) := by
  refine ⟨?_, List.filter_sublist _, ?_, ?_⟩
  · intro r hr
    simp only [single_series] at hr
    have h2 := List.of_mem_filter hr
    exact eq_of_beq h2
  · intro r hr hp
    exact List.mem_filter.mpr ⟨hr, by simp [hp]⟩
  · intro h
    rw [single_series, List.filter_eq_nil_iff]
    intro a ha
    simp only [beq_iff_eq]
    exact h a ha

/-- Claim C8 (confirmed): with an empty package selection the program
renders the single-project trend view and then stops (`st.stop()`) before
the comparison view: only the trend chart is produced, no comparison chart
appears, and the trend chart is the same one rendered for any selection. -/
theorem c8_empty_selection (timeFrame : String) (today startDate : Int) (raw : List RawRow) :
    renderViews timeFrame today startDate raw []
      = [View.trend (selectedDataStreamlit timeFrame today startDate raw)] ∧
    (∀ t, View.comparisonView t ∉ renderViews timeFrame today startDate raw []) ∧
    ∀ selectPackages : List String,
      (renderViews timeFrame today startDate raw selectPackages).head?
        = some (View.trend (selectedDataStreamlit timeFrame today startDate raw)) := by
  refine ⟨rfl, ?_, ?_⟩
  · intro t ht
    rw [show renderViews timeFrame today startDate raw []
        = [View.trend (selectedDataStreamlit timeFrame today startDate raw)] from rfl] at ht
    simp at ht
  · intro sel
    cases sel with
    | nil => rfl
    | cons s ss => rfl

/-- Claim C10 (confirmed): the view-shaping steps only select rows — each is
a sublist of the derived table (rows appear with `period_start`, `project`,
`downloads` and `delta` unchanged, in order), and every shaped row is a
member of the derived table.  Shaping is pure: it builds a new list and the
input table is not modified. -/
theorem c10_shaping_selects (records : List DownloadRecord) (p : String) (sel : List String) :
    List.Sublist (single_series records p) records ∧
    List.Sublist (comparison records sel) records ∧
    (∀ r ∈ single_series records p, r ∈ records) ∧
    (∀ r ∈ comparison records sel, r ∈ records) := by
  refine ⟨List.filter_sublist _, List.filter_sublist _, ?_, ?_⟩
  · intro r hr
    simp only [single_series] at hr
    exact List.mem_of_mem_filter hr
  · intro r hr
    simp only [comparison] at hr
    exact List.mem_of_mem_filter hr

end App
